import Mathlib

/-!
Verification of the session-lifecycle core of `gastonmorixe/codex`.

Shallow embedding of:
- `codex-rs/tui/src/sessions_picker.rs` (session discovery, titles, the
  interactive picker's event handlers),
- `codex-rs/cli/src/sessions.rs` (session resolution by id prefix),
- `codex-rs/core/src/local_exec.rs` (process-group interrupt controller).

Modelling conventions:
- Rust `String`/`&str` values are Lean `String`s; byte-level reasoning
  (UTF-8 lengths, `String::truncate`) works on `List Char` with
  `Char.utf8Size`.
- A rollout file's JSON lines are modelled by the closed variant `Line`:
  a line either parses as the header record, parses as a state record
  (with the optional `name` field), or is anything else (`other` covers
  both opaque event records and lines that are not valid JSON).
- The RFC3339 timestamp parse of a header is modelled by the field
  `timestampParse : Option Nat` (`some t` = the string parses to the
  instant `t`, `none` = `DateTime::parse_from_rfc3339` fails).
- The filesystem is an association list from path strings to line lists;
  renames move the stored content untouched, mirroring `std::fs::rename`.
- Functions that can panic in Rust (`String::truncate` off a character
  boundary) return `Option`, with `none` for the panic.
- Display-only data (rendered text, match highlight indices, scroll
  offset, file sizes and mtime-derived durations, approximate turn
  counts) is not modelled: no claim depends on it.
-/

namespace Codex

/-! ## String utilities (Rust str semantics) -/

/-- Rust `char::is_whitespace` (the Unicode `White_Space` property). -/
def rustIsWhitespace (c : Char) : Bool :=
  let v := c.toNat
  decide ((0x09 ≤ v ∧ v ≤ 0x0d) ∨ v = 0x20 ∨ v = 0x85 ∨ v = 0xa0 ∨ v = 0x1680 ∨
    (0x2000 ≤ v ∧ v ≤ 0x200a) ∨ v = 0x2028 ∨ v = 0x2029 ∨ v = 0x202f ∨
    v = 0x205f ∨ v = 0x3000)

/-- Rust `char::is_control` (Unicode `Cc`: U+0000..U+001F and U+007F..U+009F). -/
def rustIsControl (c : Char) : Bool :=
  decide (c.toNat < 0x20 ∨ (0x7f ≤ c.toNat ∧ c.toNat ≤ 0x9f))

/-- Rust `str::trim`: strip whitespace from both ends. -/
def rustTrim (cs : List Char) : List Char :=
  ((cs.dropWhile rustIsWhitespace).reverse.dropWhile rustIsWhitespace).reverse

/-- Drop a single trailing carriage return, as Rust `str::lines` does on
lines that ended with `\r\n`. -/
def stripSuffixCR (cs : List Char) : List Char :=
  match cs.reverse with
  | '\r' :: rest => rest.reverse
  | _ => cs

/-- Rust `s.lines().next().unwrap_or("")`: the first `\n`-delimited line
(with a trailing `\r` stripped when the line ended in `\r\n`); the final
line of a string without `\n` keeps a trailing `\r`. -/
def firstLine (cs : List Char) : List Char :=
  if cs.contains '\n' then stripSuffixCR (cs.takeWhile (· ≠ '\n'))
  else cs

/-- UTF-8 byte length (Rust `str::len`). -/
def utf8Len (cs : List Char) : Nat :=
  cs.foldl (fun n c => n + c.utf8Size) 0

/-- The prefix of `cs` whose UTF-8 encoding is exactly `k` bytes, or `none`
when byte `k` is not a character boundary (the case where Rust
`String::truncate` panics). Only meaningful for `k` at most the total byte
length, which is how the sources call it. -/
def takeBytes (cs : List Char) (k : Nat) : Option (List Char) :=
  match cs, k with
  | _, 0 => some []
  | [], _ + 1 => none
  | c :: cs, k + 1 =>
    if c.utf8Size ≤ k + 1 then (takeBytes cs (k + 1 - c.utf8Size)).map (c :: ·)
    else none

/-- ASCII lowercasing, modelling Rust `str::to_lowercase` on the ASCII
inputs exercised here. -/
def lowerStr (s : String) : String :=
  String.mk (s.data.map Char.toLower)

/-! ## Title resolution (`read_header`, sessions_picker.rs lines 94-111) -/

/-- `String::truncate(80)` guarded by `title.len() > 80`, exactly as in
`read_header`: `none` models the panic when byte 80 is not a character
boundary. -/
def truncate80 (t : List Char) : Option (List Char) :=
  if utf8Len t > 80 then takeBytes t 80 else some t

/-- The title computation of `read_header` (sessions_picker.rs lines
94-111), factored out of the entry construction: start from the folded
state name (empty string when absent), fall back to the trimmed first line
of `instructions` when that is empty, fall back to the literal
`"(no title)"`, then truncate at byte index 80 when longer than 80 bytes. -/
def readHeaderTitleChars (name instructions : Option String) : Option (List Char) :=
  let t1 := (name.getD "").data
  let t2 := if t1.isEmpty then rustTrim (firstLine (instructions.getD "").data) else t1
  let t3 := if t2.isEmpty then "(no title)".data else t2
  truncate80 t3

/-- Accumulator pass for `splitLines`; `acc` holds the current line
reversed. Lines ended by `\n` get a trailing `\r` stripped; a final line
without `\n` keeps one, and a trailing `\n` produces no extra empty line —
matching Rust `str::lines`. -/
def splitLinesAux : List Char → List Char → List (List Char)
  | [], acc => if acc.isEmpty then [] else [acc.reverse]
  | c :: tl, acc =>
    if c = '\n' then stripSuffixCR acc.reverse :: splitLinesAux tl []
    else splitLinesAux tl (c :: acc)

/-- Split a character list into lines, as Rust `str::lines`. Used only by
the spec-side title definition below. -/
def splitLines (cs : List Char) : List (List Char) :=
  splitLinesAux cs []

/-- Written from the spec's words, for comparison with `readHeaderTitleChars`
(claim C1): "(1) state name if present and not blank after trimming;
(2) first non-blank line of `instructions`, trimmed and truncated to 80
Unicode scalar values with a truncation marker appended when cut;
(3) literal placeholder \"(no title)\"". The unspecified truncation marker
is taken to be the ellipsis character. -/
def specTitleChars (name instructions : Option String) : List Char :=
  let instrTitle :=
    match (splitLines (instructions.getD "").data).find? (fun l => !(rustTrim l).isEmpty) with
    | some l =>
      let t := rustTrim l
      if t.length > 80 then t.take 80 ++ ['…'] else t
    | none => "(no title)".data
  match name with
  | some n => if (rustTrim n.data).isEmpty then instrTitle else n.data
  | none => instrTitle

/-! ## Process interrupt controller (`core/src/local_exec.rs`, Unix build)

The runtime state is the mutex-guarded slot `pgid : Option i32`; the mutex
makes each operation one atomic state transition, which is how it is
modelled here (a poisoned lock, which the code ignores with
`if let Ok(..)`, is not modelled). -/

/-- `libc::SIGINT`. -/
def SIGINT : Nat := 2

/-- One delivered signal: `libc::kill(target, signum)`. On interrupt the
target is the negated process-group id, so the whole group receives it. -/
structure Signal where
  target : Int
  signum : Nat
deriving DecidableEq

/-- `local_exec::interrupt` (lines 85-102, Unix branch): atomically
`take()` the slot — returning its value while leaving `None` — and, when a
value was present, send `SIGINT` to the negated group id. Returns the new
slot contents and the signal delivered, if any. -/
def interrupt (pgid : Option Int) : Option Int × Option Signal :=
  match pgid with
  | some g => (none, some ⟨-g, SIGINT⟩)
  | none => (none, none)

/-- `local_exec::record_child` (lines 47-58, Unix branch): when a pid was
observed, store `getpgid(pid)` falling back to the pid itself when the
lookup fails (returns a non-positive value). The OS lookup is a parameter. -/
def record_child (getpgid : Int → Int) (pid? : Option Nat) (pgid : Option Int) : Option Int :=
  match pid? with
  | some pidU =>
    let pid : Int := pidU
    let g := getpgid pid
    some (if g > 0 then g else pid)
  | none => pgid

/-- `local_exec::clear` (lines 69-82, Unix branch). -/
def clear (_pgid : Option Int) : Option Int := none

/-! ## Rollout files and discovery (`sessions_picker.rs` lines 52-172)

`codex_core::rollout::recorder` is not part of the packaged sources; its
read/fold behaviour is modelled from the spec where noted. JSON parsing is
modelled by the closed variant `Line`: a line of the file either parses as
the header record, parses as a state record, or is anything else. -/

/-- `SessionMeta`, the deserialized first line. `timestampParse` models the
result of `DateTime::parse_from_rfc3339` on the `timestamp` string:
`some t` when the string parses to the instant `t` (seconds), `none` when
parsing fails. -/
structure SessionMeta where
  id : String
  timestampParse : Option Nat
  cwd : String
  instructions : Option String
deriving DecidableEq

/-- `HeaderWithGit` (sessions_picker.rs lines 66-72): the header plus the
optional git metadata. `repoHost` models the host extracted from
`git.repository_url` by `url::Url::parse` (an external crate), which is
all the picker uses the URL for. -/
structure HeaderWithGit where
  meta : SessionMeta
  branch : Option String
  repoHost : Option String
deriving DecidableEq

/-- One line of a rollout file, as seen by the readers: a line that parses
as the header shape, a line that parses as a state record (carrying the
optional `name` field), or anything else — opaque event records and lines
that are not valid JSON, both of which every reader skips. -/
inductive Line where
  | header (h : HeaderWithGit)
  | state (name : Option String)
  | other
deriving DecidableEq

/-- Whether a line is a state record. -/
def isStateLine : Line → Bool
  | .state _ => true
  | _ => false

/-- Modelled from the spec: the fold of
`read_session_header_and_state` (codex_core::rollout::recorder, not in the
packaged sources) — "Folds all recognized state lines in file order",
per-field last-write-wins, "a field absent in a later record does not
erase a value set by an earlier one"; unrecognized lines are skipped. -/
def foldState (ls : List Line) : Option String :=
  ls.foldl
    (fun acc l =>
      match l with
      | .state (some n) => some n
      | _ => acc)
    none

/-- A discovered session (`SessionEntry`, sessions_picker.rs lines 52-64).
`when` is the parsed creation instant. Display-only fields
(`approx_turns`, `duration_secs`, `size_bytes`) are omitted; no picker
logic reads them. -/
structure SessionEntry where
  id : String
  when : Nat
  title : String
  path : String
  cwd : Option String
  branch : Option String
  repoHost : Option String
deriving DecidableEq

/-- `read_header` (sessions_picker.rs lines 74-147) on a file's parsed
lines. Outer `none` models a panic inside `String::truncate`; `some none`
models `Ok(None)` (the file is skipped: empty file, first line not parsing
as the header shape, or timestamp failing RFC3339); `some (some e)` is a
discovered entry. -/
def readHeader (path : String) (content : List Line) : Option (Option SessionEntry) :=
  match content with
  | [] => some none
  | first :: _ =>
    match first with
    | .header h =>
      let name := foldState content
      match h.meta.timestampParse with
      | none => some none
      | some t =>
        match readHeaderTitleChars name h.meta.instructions with
        | none => none
        | some title =>
          some (some
            { id := h.meta.id, when := t, title := String.mk title, path := path,
              cwd := some h.meta.cwd, branch := h.branch, repoHost := h.repoHost })
    | _ => some none

/-- The final path component (the directory part, not modelled elsewhere,
is irrelevant to the name checks). -/
def fileNameOf (p : String) : String :=
  String.mk (p.data.reverse.takeWhile (· ≠ '/')).reverse

/-- Rust `str::starts_with` on strings. -/
def strStartsWith (s pre : String) : Bool :=
  pre.data.isPrefixOf s.data

/-- Rust `str::ends_with` on strings. -/
def strEndsWith (s suf : String) : Bool :=
  suf.data.reverse.isPrefixOf s.data.reverse

/-- The rollout naming convention checked by both collectors:
`rollout-*.jsonl`. -/
def isRolloutFile (name : String) : Bool :=
  strStartsWith name "rollout-" && strEndsWith name ".jsonl"

/-- The filesystem under the sessions root: an association list from path
to parsed line list. Directory structure and io errors are not modelled. -/
abbrev FS := List (String × List Line)

def fsLookup (fs : FS) (p : String) : Option (List Line) :=
  (fs.find? (fun e => e.1 == p)).map (·.2)

def fsExists (fs : FS) (p : String) : Bool :=
  (fsLookup fs p).isSome

/-- `std::fs::rename(src, dst)`: move the content, overwriting `dst`;
fails (returning the filesystem unchanged and `false`) when `src` does not
exist. -/
def fsRename (fs : FS) (src dst : String) : FS × Bool :=
  match fsLookup fs src with
  | none => (fs, false)
  | some c => ((fs.filter (fun e => !(e.1 == src) && !(e.1 == dst))) ++ [(dst, c)], true)

/-- Modelled from the spec: `append_state_line` (codex_core::rollout::
recorder, not in the packaged sources) "serializes one state record and
appends it, plus a trailing line terminator, as a single write" and "fails
with an I/O error if the file cannot be opened for append" — modelled as
failing when the path is absent. -/
def append_state_line (fs : FS) (p : String) (name : Option String) : Except Unit FS :=
  match fsLookup fs p with
  | none => .error ()
  | some c => .ok ((fs.filter (fun e => !(e.1 == p))) ++ [(p, c ++ [Line.state name])])

/-- The entries produced by the scan loop of `collect_recent_sessions`
(lines 156-167): keep files matching the naming convention whose
`read_header` yields `Ok(Some(..))`. `none` propagates a title panic. -/
def collectEntries (fs : FS) : Option (List SessionEntry) :=
  match fs with
  | [] => some []
  | (p, c) :: rest =>
    if isRolloutFile (fileNameOf p) then
      match readHeader p c with
      | none => none
      | some none => collectEntries rest
      | some (some e) => (collectEntries rest).map (e :: ·)
    else collectEntries rest

/-- Stable insertion into a descending-by-`when` list: the new element goes
after every element with `when` at least as large. -/
def insertByWhen (e : SessionEntry) : List SessionEntry → List SessionEntry
  | [] => [e]
  | x :: xs => if x.when < e.when then e :: x :: xs else x :: insertByWhen e xs

/-- `out.sort_by(|a, b| b.when.cmp(&a.when))` — a stable descending sort by
creation instant, realized as left-to-right stable insertion. -/
def sortByWhenDesc (l : List SessionEntry) : List SessionEntry :=
  l.foldl (fun acc e => insertByWhen e acc) []

/-- `collect_recent_sessions` (lines 149-172): scan, sort newest first,
truncate to the limit. `none` propagates a title panic. -/
def collect_recent_sessions (fs : FS) (limit : Nat) : Option (List SessionEntry) :=
  (collectEntries fs).map (fun es => (sortByWhenDesc es).take limit)

/-! ## Backup paths (`PathBuf::set_extension`) -/

/-- Split a file name at its final dot, per Rust's extension rules: the
extension is the portion after the last `.`, except that a name whose only
dot is its first character has no extension. Returns `(stem, extension)`
when an extension exists. -/
def lastDotSplit (name : List Char) : Option (List Char × List Char) :=
  let r := name.reverse
  let ext := r.takeWhile (· ≠ '.')
  if ext.length = r.length then none
  else
    let stem := r.drop (ext.length + 1)
    if stem.isEmpty then none else some (stem.reverse, ext.reverse)

/-- `PathBuf::set_extension(ext)` on well-formed file paths: replace the
final component's extension (or append one) with `.ext`. The degenerate
cases where Rust leaves the path unchanged (empty file name, `..`) do not
arise at the call sites. -/
def setExtension (p : String) (ext : String) : String :=
  let cs := p.data
  let nameRev := cs.reverse.takeWhile (· ≠ '/')
  let dir := cs.take (cs.length - nameRev.length)
  let name := nameRev.reverse
  let stem :=
    match lastDotSplit name with
    | some (st, _) => st
    | none => name
  String.mk (dir ++ stem ++ '.' :: ext.data)

/-- The `while backup.exists()` collision loop of the delete handler
(sessions_picker.rs lines 1097-1101), with explicit fuel standing in for
the unbounded loop. Each iteration re-extends the previous candidate with
`deleted.{n}`; successive candidates are strictly longer, so fuel
`fs.length + 1` always reaches a fresh path. -/
def backupLoop (fs : FS) (backup : String) (n : Nat) : Nat → String
  | 0 => backup
  | fuel + 1 =>
    if fsExists fs backup then
      backupLoop fs (setExtension backup ("deleted." ++ toString (n + 1))) (n + 1) fuel
    else backup

/-- The backup path chosen for a confirmed delete (lines 1095-1101):
`set_extension("deleted")`, then the collision loop. -/
def computeBackup (fs : FS) (p : String) : String :=
  backupLoop fs (setExtension p "deleted") 0 (fs.length + 1)

/-! ## The picker widget (`SessionsPickerWidget`, lines 276-518)

Rendering (`rows` text, match indices, preview cache) and the scroll
offset inside `ScrollState` are not modelled; the row list keeps exactly
what the handlers read: each row's path and whether it is a date-header
row. -/

/-- One row of the rebuilt list: the parallel `paths`/`is_header` vectors
of the widget, with the rendered `GenericDisplayRow` dropped. Header rows
carry `PathBuf::new()`, the empty path. -/
structure RowInfo where
  path : String
  isHeader : Bool
deriving DecidableEq

/-- The picker state (fields of `SessionsPickerWidget` plus
`ScrollState.selected_idx`). -/
structure Widget where
  rows : List RowInfo
  entries : List SessionEntry
  selected : Option Nat
  visibleRows : Nat
  currentCwd : String
  filtering : Bool
  filterText : String
  isRenaming : Bool
  renameText : String
  confirmResumePath : Option String
  confirmDeletePath : Option String
  lastDeleted : Option (String × String)
  lastActionHint : Option String
deriving DecidableEq

/-- `SessionsPickerWidget::selected_path` (lines 411-417). -/
def selectedPath (w : Widget) : Option String :=
  w.selected.bind fun i =>
    if ((w.rows.get? i).map (·.isHeader)).getD false then none
    else (w.rows.get? i).map (·.path)

/-- `SessionsPickerWidget::selected_entry_mut` (lines 419-423), as the
entry it designates: the first entry whose path equals the selected row's
path. -/
def selectedEntry? (w : Widget) : Option SessionEntry :=
  w.selected.bind fun i =>
    (w.rows.get? i).bind fun r => w.entries.find? (fun e => e.path == r.path)

/-- Mutate the title of the first entry with the given path (the effect of
`entry.title = new_name` through `selected_entry_mut`). -/
def setTitleFirst : List SessionEntry → String → String → List SessionEntry
  | [], _, _ => []
  | e :: es, p, t =>
    if e.path == p then { e with title := t } :: es else e :: setTitleFirst es p t

/-- Replace the first entry with the given path (the undo handler's
`*existing = e` through `iter_mut().find`). -/
def setEntryFirst : List SessionEntry → String → SessionEntry → List SessionEntry
  | [], _, _ => []
  | x :: xs, p, e =>
    if x.path == p then e :: xs else x :: setEntryFirst xs p e

/-- Rust `str::contains(&substring)` on character lists. -/
def listIsInfixOf (needle : List Char) : List Char → Bool
  | [] => needle.isEmpty
  | c :: tl => needle.isPrefixOf (c :: tl) || listIsInfixOf needle tl

/-- The search haystack of `rebuild_from_filter` (lines 444-464):
lowercased title, branch, repository host and path joined by newlines. -/
def hayOf (e : SessionEntry) : String :=
  lowerStr e.title ++ "\n" ++ lowerStr (e.branch.getD "") ++ "\n" ++
    lowerStr (e.repoHost.getD "") ++ "\n" ++ lowerStr e.path

/-- The local calendar day of an entry's timestamp
(`e.when.with_timezone(&Local).date_naive()`), modelled as the UTC day
number; the time zone only shifts where the day boundaries fall. -/
def entryDay (e : SessionEntry) : Nat :=
  e.when / 86400

/-- The grouping loop of `rebuild_from_filter` (lines 484-511): one
non-selectable header row before the first entry of each calendar day. -/
def groupRows : List SessionEntry → Option Nat → List RowInfo
  | [], _ => []
  | e :: es, lastDay =>
    let d := entryDay e
    if lastDay = some d then ⟨e.path, false⟩ :: groupRows es (some d)
    else ⟨"", true⟩ :: ⟨e.path, false⟩ :: groupRows es (some d)

/-- Modelled from the spec: `ScrollState::clamp_selection` (bottom_pane,
not in the packaged sources) keeps the selection index inside the row
list, dropping it when the list is empty. -/
def clampSelection (len : Nat) : Option Nat → Option Nat
  | none => none
  | some i => if len = 0 then none else some (min i (len - 1))

/-- `SessionsPickerWidget::rebuild_from_filter` (lines 425-517). The fuzzy
pass computes display-only highlight indices and is omitted;
`ensure_visible` only moves the scroll offset, which is not modelled. -/
def rebuild_from_filter (w : Widget) : Widget :=
  let ftLower := lowerStr (String.mk (rustTrim w.filterText.data))
  let filtered := w.entries.filter fun e =>
    if w.filtering && !(ftLower == "") then listIsInfixOf ftLower.data (hayOf e).data
    else true
  let rows := groupRows filtered none
  { w with rows := rows, selected := clampSelection rows.length w.selected }

/-- Modelled from the spec: `ScrollState::move_up_wrap` — "single-step
up/down wraps at list ends" (bottom_pane, not in the packaged sources). -/
def move_up_wrap (len : Nat) : Option Nat → Option Nat
  | none => if len = 0 then none else some (len - 1)
  | some i => if len = 0 then none else some ((i + (len - 1)) % len)

/-- Modelled from the spec: `ScrollState::move_down_wrap` — see
`move_up_wrap`. -/
def move_down_wrap (len : Nat) : Option Nat → Option Nat
  | none => if len = 0 then none else some 0
  | some i => if len = 0 then none else some ((i + 1) % len)

/-- The Up/Down handlers' skip loop (lines 881-887 and 897-903): move at
least once, then keep moving while the landing row is a header. Fuel
stands in for the unbounded `loop`; the call sites pass `rows.len() + 1`,
which suffices whenever a selectable row exists (proved below). -/
def skipLoop (hdr : List Bool) (move : Option Nat → Option Nat) (sel : Option Nat) :
    Nat → Option Nat
  | 0 => sel
  | fuel + 1 =>
    let s := move sel
    if hdr.getD (s.getD 0) false then skipLoop hdr move s fuel else s

/-- The Home handler's forward skip (lines 944-951):
`while is_header(i) && i + 1 < len { i += 1 }`. -/
def homeSkip (hdr : List Bool) (i : Nat) : Nat → Nat
  | 0 => i
  | fuel + 1 =>
    if hdr.getD i false && decide (i + 1 < hdr.length) then homeSkip hdr (i + 1) fuel
    else i

/-- The End handler's backward skip (lines 964-968):
`while i > 0 && is_header(i) { i -= 1 }`. -/
def endSkip (hdr : List Bool) (i : Nat) : Nat → Nat
  | 0 => i
  | fuel + 1 =>
    if decide (0 < i) && hdr.getD i false then endSkip hdr (i - 1) fuel
    else i

/-- `for _ in 0..step { move }` of the PageUp/PageDown handlers (lines
913-916 and 926-929): repeat the raw wrap step, with no header check. -/
def iterateMove (f : Option Nat → Option Nat) (s : Option Nat) : Nat → Option Nat
  | 0 => s
  | n + 1 => iterateMove f (f s) n

/-- The cwd-mismatch test of the Enter handler (lines 1111-1121). -/
def needsConfirmFor (w : Widget) (selPath : String) : Bool :=
  match w.entries.find? (fun e => e.path == selPath) with
  | some entry =>
    match entry.cwd with
    | some recorded => recorded != w.currentCwd
    | none => false
  | none => false

/-! ## The event loop (`run_sessions_picker_app`, lines 832-1168)

Each key press is one step of the `while !done` loop. A bare `break`
inside a match arm of the Rust code exits that `while` loop, ending the
picker with the current `selected` value (`None` at every `break` site);
this is modelled by the `exits` outcome. `request_frame.schedule_frame()`
and redraws have no effect on the modelled state. -/

/-- The key events the handler distinguishes. `chr c` is
`KeyCode::Char(c)` without modifiers; `ctrlC` is Ctrl-C. -/
inductive Key where
  | up | down | pageUp | pageDown | homeK | endK
  | ctrlC | slash | backspace | enter | esc
  | chr (c : Char)
deriving DecidableEq

/-- The outcome of handling one event: continue the loop with updated
state, leave the loop returning `sel` (`done = true` or a bare `break`),
or crash (a Rust panic reached from the handler). -/
inductive StepResult where
  | cont (w : Widget) (fs : FS)
  | exits (w : Widget) (fs : FS) (sel : Option String)
  | crash
deriving DecidableEq

/-- `read_header` through the modelled filesystem (`std::fs::File::open`
plus the line parse): an absent file is an io error, which the caller
patterns away exactly like a parse failure. -/
def readHeaderFS (fs : FS) (p : String) : Option (Option SessionEntry) :=
  match fsLookup fs p with
  | none => some none
  | some c => readHeader p c

/-- One step of the key-event match (lines 876-1152). Each arm is a direct
transcription of the corresponding Rust arm; comments give the line
ranges. -/
def handleKey (w : Widget) (fs : FS) (k : Key) : StepResult :=
  let hdr := w.rows.map (·.isHeader)
  let len := w.rows.length
  match k with
  -- Up (877-892): `break` out of the event loop while renaming/filtering,
  -- otherwise the move-and-skip loop.
  | .up =>
    if w.isRenaming || w.filtering then .exits w fs none
    else .cont { w with selected := skipLoop hdr (move_up_wrap len) w.selected (len + 1) } fs
  -- Down (893-908).
  | .down =>
    if w.isRenaming || w.filtering then .exits w fs none
    else .cont { w with selected := skipLoop hdr (move_down_wrap len) w.selected (len + 1) } fs
  -- PageUp (909-921): repeat the raw step `visible_rows.max(1)` times.
  | .pageUp =>
    if w.isRenaming || w.filtering then .exits w fs none
    else .cont { w with selected := iterateMove (move_up_wrap len) w.selected (max w.visibleRows 1) } fs
  -- PageDown (922-934).
  | .pageDown =>
    if w.isRenaming || w.filtering then .exits w fs none
    else .cont { w with selected := iterateMove (move_down_wrap len) w.selected (max w.visibleRows 1) } fs
  -- Home (935-956).
  | .homeK =>
    if w.isRenaming || w.filtering then .exits w fs none
    else
      let sel0 : Option Nat := if w.rows.isEmpty then none else some 0
      .cont { w with selected := sel0.map (fun i => homeSkip hdr i len) } fs
  -- End (957-975).
  | .endK =>
    if w.isRenaming || w.filtering then .exits w fs none
    else
      let sel : Option Nat := if len = 0 then none else some (endSkip hdr (len - 1) len)
      .cont { w with selected := sel } fs
  -- Ctrl-C (976-991): note no ConfirmDelete branch here.
  | .ctrlC =>
    if w.isRenaming then .cont { w with isRenaming := false, renameText := "" } fs
    else if w.filtering then
      .cont (rebuild_from_filter { w with filtering := false, filterText := "" }) fs
    else if w.confirmResumePath.isSome then .cont { w with confirmResumePath := none } fs
    else .exits w fs none
  -- `/` (992-999): matched before the generic Char arm.
  | .slash =>
    if w.isRenaming then .exits w fs none
    else .cont { w with filtering := true, filterText := "" } fs
  -- Backspace (1000-1009).
  | .backspace =>
    if w.filtering then
      .cont (rebuild_from_filter { w with filterText := String.mk w.filterText.data.dropLast }) fs
    else if w.isRenaming then
      .cont { w with renameText := String.mk w.renameText.data.dropLast } fs
    else .cont w fs
  -- Char (1010-1068).
  | .chr c =>
    if w.filtering then
      if !(rustIsControl c) then
        .cont (rebuild_from_filter { w with filterText := w.filterText.push c }) fs
      else .cont w fs
    else if w.isRenaming then
      if !(rustIsControl c) then .cont { w with renameText := w.renameText.push c } fs
      else .cont w fs
    else if c = 'r' then .cont { w with isRenaming := true, renameText := "" } fs
    else if c = 'd' then
      match selectedPath w with
      | some p => .cont { w with confirmDeletePath := some p } fs
      | none => .cont w fs
    else if c = 'u' then
      -- Undo (1032-1049): take the slot, rename back (result ignored),
      -- re-read the header, replace or push the entry, rebuild.
      match w.lastDeleted with
      | some (del, backup) =>
        let w1 := { w with lastDeleted := none }
        let fs1 := (fsRename fs backup del).1
        match readHeaderFS fs1 del with
        | none => .crash
        | some parsed =>
          let entries1 :=
            match parsed with
            | some e =>
              if (w1.entries.find? (fun x => x.path == del)).isSome then
                setEntryFirst w1.entries del e
              else w1.entries ++ [e]
            | none => w1.entries
          .cont { rebuild_from_filter { w1 with entries := entries1 } with
                  lastActionHint := some "Undo: restored deleted session" } fs1
      | none => .cont w fs
    else if c = 'y' then
      match selectedPath w with
      | some p => .cont { w with lastActionHint := some ("Path copied: " ++ p) } fs
      | none => .cont w fs
    else if c = 'c' then
      match selectedEntry? w with
      | some e => .cont { w with lastActionHint := some ("ID copied: " ++ e.id) } fs
      | none => .cont w fs
    else if c = 'i' then
      match selectedEntry? w with
      | some e =>
        .cont { w with lastActionHint := some ("id8 copied: " ++ String.mk (e.id.data.take 8)) } fs
      | none => .cont w fs
    else .cont w fs
  -- Enter (1069-1132).
  | .enter =>
    if w.isRenaming then
      -- Rename commit (1071-1087): append (result discarded with `let _`),
      -- update the in-memory title, rebuild — then `break`.
      let newName := w.renameText
      let p : Widget × FS :=
        match selectedEntry? w with
        | some entry =>
          if newName ≠ "" then
            (rebuild_from_filter { w with entries := setTitleFirst w.entries entry.path newName },
             match append_state_line fs entry.path (some newName) with
             | .ok f => f
             | .error _ => fs)
          else (w, fs)
        | none => (w, fs)
      .exits { p.1 with isRenaming := false, renameText := "" } p.2 none
    else if w.filtering then
      -- Filter accept (1088-1092): keep results — then `break`.
      .exits { w with filtering := false } fs none
    else
      match w.confirmDeletePath with
      | some selPath =>
        -- Delete confirm (1093-1108): move to backup, set the undo slot,
        -- drop the entry, rebuild — then `break`.
        let w1 := { w with confirmDeletePath := none }
        let backup := computeBackup fs selPath
        let r := fsRename fs selPath backup
        let w2 :=
          if r.2 then
            rebuild_from_filter
              { w1 with lastDeleted := some (selPath, backup),
                        entries := w1.entries.filter (fun e => !(e.path == selPath)) }
          else w1
        .exits w2 r.1 none
      | none =>
        -- Resume (1109-1131): confirm on cwd mismatch, terminate otherwise.
        match selectedPath w with
        | some selPath =>
          if w.confirmResumePath == some selPath || !(needsConfirmFor w selPath) then
            .exits w fs (some selPath)
          else .cont { w with confirmResumePath := some selPath } fs
        | none => .cont w fs
  -- Esc (1133-1150).
  | .esc =>
    if w.isRenaming then .cont { w with isRenaming := false, renameText := "" } fs
    else if w.filtering then
      .cont (rebuild_from_filter { w with filtering := false, filterText := "" }) fs
    else if w.confirmDeletePath.isSome then .cont { w with confirmDeletePath := none } fs
    else if w.confirmResumePath.isSome then .cont { w with confirmResumePath := none } fs
    else .exits w fs none

/-- Run a sequence of key events through the loop; keys after an exit are
never handled (the loop is gone). `none` propagates a crash. -/
def runKeys (w : Widget) (fs : FS) : List Key → Option (Widget × FS × Option (Option String))
  | [] => some (w, fs, none)
  | k :: ks =>
    match handleKey w fs k with
    | .cont w' fs' => runKeys w' fs' ks
    | .exits w' fs' s => some (w', fs', some s)
    | .crash => none

/-- The widget after a step, when the handler did not crash. -/
def stepWidget : StepResult → Option Widget
  | .cont w _ => some w
  | .exits w _ _ => some w
  | .crash => none

/-- The filesystem after a step, when the handler did not crash. -/
def stepFS : StepResult → Option FS
  | .cont _ fs => some fs
  | .exits _ fs _ => some fs
  | .crash => none

/-- `some sel` exactly when the step left the event loop. -/
def stepExits : StepResult → Option (Option String)
  | .exits _ _ s => some s
  | _ => none

/-- The widget after a step, defaulting to the input on a crash. -/
def afterKey (w : Widget) (fs : FS) (k : Key) : Widget :=
  (stepWidget (handleKey w fs k)).getD w

/-- The selection invariant of the spec: the selection index, when
present, addresses a row of the list that is not a date-header row. -/
def selectionOk (w : Widget) : Prop :=
  ∀ i, w.selected = some i →
    i < w.rows.length ∧ (w.rows.map (·.isHeader)).getD i false = false

/-! ## Session resolution by id (`cli/src/sessions.rs`) -/

/-- `FullEntry` (cli/src/sessions.rs lines 114-122), restricted to the
fields `resolve_session_path` reads: the hyphen-free (`as_simple`) id
string and the path. -/
structure FullEntry where
  id : String
  path : String
deriving DecidableEq

/-- `collect_sessions` (cli lines 124-156): every `rollout-*.jsonl` file
whose `read_session_header_and_state` succeeds — per the spec ("fails only
when the first line is absent or not a valid header", modelled from the
spec as the recorder is not in the packaged sources), exactly the files
whose first line parses as a header. The CLI collector does not validate
the timestamp. -/
def collect_sessions (fs : FS) : List FullEntry :=
  fs.filterMap fun e =>
    if isRolloutFile (fileNameOf e.1) then
      match e.2 with
      | .header h :: _ => some ⟨h.meta.id, e.1⟩
      | _ => none
    else none

/-- The two `anyhow::bail!` messages of `resolve_session_path`. -/
inductive ResolveError where
  | noMatch
  | ambiguous
deriving DecidableEq

/-- `resolve_session_path` (cli lines 169-189): an existing path is
returned as is; otherwise the argument is an id prefix matched against
every discovered session, failing on zero or multiple matches. -/
def resolve_session_path (fs : FS) (idOrPath : String) : Except ResolveError String :=
  if fsExists fs idOrPath then .ok idOrPath
  else
    match (collect_sessions fs).filter (fun e => strStartsWith e.id idOrPath) with
    | [] => .error .noMatch
    | [one] => .ok one.path
    | _ => .error .ambiguous

/-! ## Concrete fixtures for the evaluation theorems -/

/-- A well-formed session file header (fixture). -/
def headerA : HeaderWithGit := ⟨⟨"aaaa1111", some 1000, "/w", none⟩, none, none⟩

/-- A one-session filesystem (fixture for the delete/undo evaluations). -/
def fsA : FS := [("rollout-a.jsonl", [Line.header headerA, Line.state (some "Alpha")])]

/-- The entry `read_header` derives from `fsA`'s one file. -/
def entryA : SessionEntry :=
  ⟨"aaaa1111", 1000, "Alpha", "rollout-a.jsonl", some "/w", none, none⟩

/-- The picker sitting in ConfirmDelete on `rollout-a.jsonl`. -/
def widgetA : Widget :=
  { rows := [⟨"rollout-a.jsonl", false⟩], entries := [entryA], selected := some 0,
    visibleRows := 10, currentCwd := "/w", filtering := false, filterText := "",
    isRenaming := false, renameText := "", confirmResumePath := none,
    confirmDeletePath := some "rollout-a.jsonl", lastDeleted := none,
    lastActionHint := none }

/-- A second header (fixture). -/
def headerB : HeaderWithGit := ⟨⟨"bbbb2222", some 2000, "/w", none⟩, none, none⟩

/-- A filesystem where the default backup name is already taken. -/
def fsB : FS := [("rollout-b.jsonl", [Line.header headerB]), ("rollout-b.deleted", [])]

/-- The entry derived from `rollout-b.jsonl`. -/
def entryB : SessionEntry :=
  ⟨"bbbb2222", 2000, "(no title)", "rollout-b.jsonl", some "/w", none, none⟩

/-- The picker in ConfirmDelete on `rollout-b.jsonl`, with a prior
unconsumed undo slot. -/
def widgetB : Widget :=
  { rows := [⟨"rollout-b.jsonl", false⟩], entries := [entryB], selected := some 0,
    visibleRows := 10, currentCwd := "/w", filtering := false, filterText := "",
    isRenaming := false, renameText := "", confirmResumePath := none,
    confirmDeletePath := some "rollout-b.jsonl",
    lastDeleted := some ("old.jsonl", "old.deleted"), lastActionHint := none }

/-- An entry whose file is missing on disk (fixture for the rename-commit
append failure). -/
def entryC : SessionEntry :=
  ⟨"cccc3333", 3000, "Old", "rollout-c.jsonl", some "/w", none, none⟩

/-- The picker mid-rename on `rollout-c.jsonl` with buffer `"New"`. -/
def widgetC : Widget :=
  { rows := [⟨"rollout-c.jsonl", false⟩], entries := [entryC], selected := some 0,
    visibleRows := 10, currentCwd := "/w", filtering := false, filterText := "",
    isRenaming := true, renameText := "New", confirmResumePath := none,
    confirmDeletePath := none, lastDeleted := none, lastActionHint := none }

/-- A grouped row list — a date header followed by two entries — with the
selection on the first entry (fixture for page movement). -/
def widgetP : Widget :=
  { rows := [⟨"", true⟩, ⟨"rollout-a.jsonl", false⟩, ⟨"rollout-b.jsonl", false⟩],
    entries := [], selected := some 1,
    visibleRows := 2, currentCwd := "/w", filtering := false, filterText := "",
    isRenaming := false, renameText := "", confirmResumePath := none,
    confirmDeletePath := none, lastDeleted := none, lastActionHint := none }

/-- A state name of 79 one-byte characters followed by a two-byte
character: byte 80 falls inside the final character. -/
def longName : String := String.mk (List.replicate 79 'a' ++ ['é'])

/-- A session file whose folded state name is `longName`. -/
def fileP : List Line :=
  [Line.header ⟨⟨"dddd4444", some 4000, "/w", none⟩, none, none⟩,
   Line.state (some longName)]

/-- Whether a file's content survives the two exclusion checks of
`read_header`: the first line parses as the header shape and the
timestamp parses as RFC3339. -/
def headerOk (c : List Line) : Bool :=
  match c with
  | Line.header h :: _ => h.meta.timestampParse.isSome
  | _ => false

/-- The header's `instructions`, when the first line is a header. -/
def instructionsOf (c : List Line) : Option String :=
  match c with
  | Line.header h :: _ => h.meta.instructions
  | _ => none

/-- The picker in plain Browsing on `rollout-a.jsonl`, whose recorded
working directory matches the current one. -/
def widgetE : Widget :=
  { rows := [⟨"rollout-a.jsonl", false⟩], entries := [entryA], selected := some 0,
    visibleRows := 10, currentCwd := "/w", filtering := false, filterText := "",
    isRenaming := false, renameText := "", confirmResumePath := none,
    confirmDeletePath := none, lastDeleted := none, lastActionHint := none }

/-- Two discoverable sessions sharing the id prefix `"ab"` (fixture for
ambiguous resolution). -/
def fsR : FS :=
  [("rollout-r1.jsonl", [Line.header ⟨⟨"ab111111", some 10, "/w", none⟩, none, none⟩]),
   ("rollout-r2.jsonl", [Line.header ⟨⟨"ab222222", some 20, "/w", none⟩, none, none⟩])]

/-- A root holding one well-formed and one malformed rollout file. -/
def fsW7 : FS :=
  [("rollout-g.jsonl", [Line.header headerA]), ("rollout-bad.jsonl", [Line.other])]

/-- The entry discovery derives from `rollout-g.jsonl` (no state lines, no
instructions: placeholder title). -/
def entryG : SessionEntry :=
  ⟨"aaaa1111", 1000, "(no title)", "rollout-g.jsonl", some "/w", none, none⟩

/-- Number of single down-steps (with wraparound) from row `i` to row `j`
in a list of `len` rows; a proof device for the skip-loop lemmas. -/
def dDist (len j i : Nat) : Nat :=
  if i < j then j - i else len + j - i

/-- Number of single up-steps (with wraparound) from row `i` to row `j`. -/
def uDist (len j i : Nat) : Nat :=
  if j < i then i - j else len + i - j

/-! # Theorems -/

/-! ## Selection-movement lemmas -/

lemma stepDown_eq {len i : Nat} (h : i < len) :
    (i + 1) % len = if i + 1 = len then 0 else i + 1 := by
  split
  · rename_i h1
    rw [h1, Nat.mod_self]
  · exact Nat.mod_eq_of_lt (by omega)

lemma stepUp_eq {len i : Nat} (h : i < len) :
    (i + (len - 1)) % len = if i = 0 then len - 1 else i - 1 := by
  split
  · rename_i h1
    subst h1
    rw [Nat.zero_add]
    exact Nat.mod_eq_of_lt (by omega)
  · rename_i h1
    have h2 : i + (len - 1) = len + (i - 1) := by omega
    rw [h2, Nat.add_mod_left]
    exact Nat.mod_eq_of_lt (by omega)

lemma skipLoop_down_ok (hdr : List Bool) (j : Nat) (hj : j < hdr.length)
    (hjh : hdr.getD j false = false) :
    ∀ fuel i, i < hdr.length → dDist hdr.length j i ≤ fuel →
    ∃ m, skipLoop hdr (move_down_wrap hdr.length) (some i) fuel = some m ∧
      m < hdr.length ∧ hdr.getD m false = false := by
  intro fuel
  induction fuel with
  | zero =>
    intro i hi hd
    exfalso
    rw [dDist] at hd
    split at hd <;> omega
  | succ f ih =>
    intro i hi hd
    have hpos : 0 < hdr.length := by omega
    have hmv : move_down_wrap hdr.length (some i) = some ((i + 1) % hdr.length) := by
      rw [move_down_wrap, if_neg (by omega)]
    have hnlt : (i + 1) % hdr.length < hdr.length := Nat.mod_lt _ hpos
    by_cases hh : hdr.getD ((i + 1) % hdr.length) false = true
    · have hne : (i + 1) % hdr.length ≠ j := by
        intro he
        rw [he, hjh] at hh
        exact Bool.false_ne_true hh
      have hstep : (i + 1) % hdr.length = if i + 1 = hdr.length then 0 else i + 1 :=
        stepDown_eq hi
      have hd2 : dDist hdr.length j ((i + 1) % hdr.length) ≤ f := by
        rw [hstep] at hne ⊢
        by_cases hez : i + 1 = hdr.length
        · rw [if_pos hez] at hne ⊢
          rw [dDist] at hd ⊢
          split at hd <;> split <;> omega
        · rw [if_neg hez] at hne ⊢
          rw [dDist] at hd ⊢
          split at hd <;> split <;> omega
      obtain ⟨m, hm, hlt, hnh⟩ := ih ((i + 1) % hdr.length) hnlt hd2
      refine ⟨m, ?_, hlt, hnh⟩
      rw [skipLoop, hmv]
      simp only [Option.getD_some]
      rw [if_pos hh]
      exact hm
    · refine ⟨(i + 1) % hdr.length, ?_, hnlt, by simpa using hh⟩
      rw [skipLoop, hmv]
      simp only [Option.getD_some]
      rw [if_neg hh]

lemma skipLoop_up_ok (hdr : List Bool) (j : Nat) (hj : j < hdr.length)
    (hjh : hdr.getD j false = false) :
    ∀ fuel i, i < hdr.length → uDist hdr.length j i ≤ fuel →
    ∃ m, skipLoop hdr (move_up_wrap hdr.length) (some i) fuel = some m ∧
      m < hdr.length ∧ hdr.getD m false = false := by
  intro fuel
  induction fuel with
  | zero =>
    intro i hi hd
    exfalso
    rw [uDist] at hd
    split at hd <;> omega
  | succ f ih =>
    intro i hi hd
    have hpos : 0 < hdr.length := by omega
    have hmv : move_up_wrap hdr.length (some i) = some ((i + (hdr.length - 1)) % hdr.length) := by
      rw [move_up_wrap, if_neg (by omega)]
    have hnlt : (i + (hdr.length - 1)) % hdr.length < hdr.length := Nat.mod_lt _ hpos
    by_cases hh : hdr.getD ((i + (hdr.length - 1)) % hdr.length) false = true
    · have hne : (i + (hdr.length - 1)) % hdr.length ≠ j := by
        intro he
        rw [he, hjh] at hh
        exact Bool.false_ne_true hh
      have hstep : (i + (hdr.length - 1)) % hdr.length = if i = 0 then hdr.length - 1 else i - 1 :=
        stepUp_eq hi
      have hd2 : uDist hdr.length j ((i + (hdr.length - 1)) % hdr.length) ≤ f := by
        rw [hstep] at hne ⊢
        by_cases hez : i = 0
        · rw [if_pos hez] at hne ⊢
          rw [uDist] at hd ⊢
          split at hd <;> split <;> omega
        · rw [if_neg hez] at hne ⊢
          rw [uDist] at hd ⊢
          split at hd <;> split <;> omega
      obtain ⟨m, hm, hlt, hnh⟩ := ih _ hnlt hd2
      refine ⟨m, ?_, hlt, hnh⟩
      rw [skipLoop, hmv]
      simp only [Option.getD_some]
      rw [if_pos hh]
      exact hm
    · refine ⟨(i + (hdr.length - 1)) % hdr.length, ?_, hnlt, by simpa using hh⟩
      rw [skipLoop, hmv]
      simp only [Option.getD_some]
      rw [if_neg hh]

lemma skipLoop_down_any (hdr : List Bool) (sel : Option Nat) (j : Nat)
    (hj : j < hdr.length) (hjh : hdr.getD j false = false)
    (hsel : ∀ i, sel = some i → i < hdr.length) :
    ∃ m, skipLoop hdr (move_down_wrap hdr.length) sel (hdr.length + 1) = some m ∧
      m < hdr.length ∧ hdr.getD m false = false := by
  have hpos : 0 < hdr.length := by omega
  rcases sel with _ | i
  · have hmv : move_down_wrap hdr.length none = some 0 := by
      rw [move_down_wrap, if_neg (by omega)]
    by_cases hh : hdr.getD 0 false = true
    · have hd0 : dDist hdr.length j 0 ≤ hdr.length := by
        rw [dDist]
        split <;> omega
      obtain ⟨m, hm, hlt, hnh⟩ := skipLoop_down_ok hdr j hj hjh hdr.length 0 hpos hd0
      refine ⟨m, ?_, hlt, hnh⟩
      rw [skipLoop, hmv]
      simp only [Option.getD_some]
      rw [if_pos hh]
      exact hm
    · refine ⟨0, ?_, hpos, by simpa using hh⟩
      rw [skipLoop, hmv]
      simp only [Option.getD_some]
      rw [if_neg hh]
  · have hi := hsel i rfl
    have hd : dDist hdr.length j i ≤ hdr.length + 1 := by
      rw [dDist]
      split <;> omega
    exact skipLoop_down_ok hdr j hj hjh (hdr.length + 1) i hi hd

lemma skipLoop_up_any (hdr : List Bool) (sel : Option Nat) (j : Nat)
    (hj : j < hdr.length) (hjh : hdr.getD j false = false)
    (hsel : ∀ i, sel = some i → i < hdr.length) :
    ∃ m, skipLoop hdr (move_up_wrap hdr.length) sel (hdr.length + 1) = some m ∧
      m < hdr.length ∧ hdr.getD m false = false := by
  have hpos : 0 < hdr.length := by omega
  rcases sel with _ | i
  · have hmv : move_up_wrap hdr.length none = some (hdr.length - 1) := by
      rw [move_up_wrap, if_neg (by omega)]
    by_cases hh : hdr.getD (hdr.length - 1) false = true
    · have hd0 : uDist hdr.length j (hdr.length - 1) ≤ hdr.length := by
        rw [uDist]
        split <;> omega
      obtain ⟨m, hm, hlt, hnh⟩ :=
        skipLoop_up_ok hdr j hj hjh hdr.length (hdr.length - 1) (by omega) hd0
      refine ⟨m, ?_, hlt, hnh⟩
      rw [skipLoop, hmv]
      simp only [Option.getD_some]
      rw [if_pos hh]
      exact hm
    · refine ⟨hdr.length - 1, ?_, by omega, by simpa using hh⟩
      rw [skipLoop, hmv]
      simp only [Option.getD_some]
      rw [if_neg hh]
  · have hi := hsel i rfl
    have hd : uDist hdr.length j i ≤ hdr.length + 1 := by
      rw [uDist]
      split <;> omega
    exact skipLoop_up_ok hdr j hj hjh (hdr.length + 1) i hi hd

lemma homeSkip_ok (hdr : List Bool) (j : Nat) (hj : j < hdr.length)
    (hjh : hdr.getD j false = false) :
    ∀ fuel i, i ≤ j → hdr.length - i ≤ fuel →
    homeSkip hdr i fuel < hdr.length ∧ hdr.getD (homeSkip hdr i fuel) false = false := by
  intro fuel
  induction fuel with
  | zero =>
    intro i hij hfuel
    omega
  | succ f ih =>
    intro i hij hfuel
    rw [homeSkip]
    by_cases hh : hdr.getD i false = true
    · have hij' : i < j := by
        rcases Nat.lt_or_ge i j with h | h
        · exact h
        · have : i = j := by omega
          rw [this, hjh] at hh
          exact absurd hh (by simp)
      have hcond : (hdr.getD i false && decide (i + 1 < hdr.length)) = true := by
        rw [hh]
        simp
        omega
      rw [if_pos hcond]
      exact ih (i + 1) (by omega) (by omega)
    · have hcond : (hdr.getD i false && decide (i + 1 < hdr.length)) = false := by
        rw [Bool.and_eq_false_iff]
        left
        simpa using hh
      rw [if_neg (by rw [hcond]; simp)]
      exact ⟨by omega, by simpa using hh⟩

lemma endSkip_ok (hdr : List Bool) (j : Nat) (_hj : j < hdr.length)
    (hjh : hdr.getD j false = false) :
    ∀ fuel i, j ≤ i → i < hdr.length → i ≤ fuel →
    endSkip hdr i fuel < hdr.length ∧ hdr.getD (endSkip hdr i fuel) false = false := by
  intro fuel
  induction fuel with
  | zero =>
    intro i hji hi hfuel
    have hi0 : i = 0 := by omega
    have hj0 : j = 0 := by omega
    rw [endSkip, hi0]
    rw [hi0] at hi
    rw [hj0] at hjh
    exact ⟨hi, hjh⟩
  | succ f ih =>
    intro i hji hi hfuel
    rw [endSkip]
    by_cases hh : hdr.getD i false = true
    · have hji' : j < i := by
        rcases Nat.lt_or_ge j i with h | h
        · exact h
        · have : i = j := by omega
          rw [this, hjh] at hh
          exact absurd hh (by simp)
      have hcond : (decide (0 < i) && hdr.getD i false) = true := by
        rw [hh]
        simp
        omega
      rw [if_pos hcond]
      exact ih (i - 1) (by omega) (by omega) (by omega)
    · by_cases hzero : 0 < i
      · have hcond : (decide (0 < i) && hdr.getD i false) = false := by
          rw [Bool.and_eq_false_iff]
          right
          simpa using hh
        rw [if_neg (by rw [hcond]; simp)]
        exact ⟨hi, by simpa using hh⟩
      · have hcond : (decide (0 < i) && hdr.getD i false) = false := by
          rw [Bool.and_eq_false_iff]
          left
          simpa using hzero
        rw [if_neg (by rw [hcond]; simp)]
        exact ⟨hi, by simpa using hh⟩

lemma selectionOk_of_selected (w : Widget) (x : Option Nat)
    (h : ∀ i, x = some i →
      i < w.rows.length ∧ (w.rows.map (fun r => r.isHeader)).getD i false = false) :
    selectionOk { w with selected := x } := by
  intro i hi
  exact h i hi

/-! ## Discovery lemmas -/

lemma mem_insertByWhen {a e : SessionEntry} {l : List SessionEntry} :
    a ∈ insertByWhen e l ↔ a = e ∨ a ∈ l := by
  induction l with
  | nil => simp [insertByWhen]
  | cons x xs ih =>
    by_cases h : x.when < e.when
    · simp only [insertByWhen, if_pos h, List.mem_cons]
    · simp only [insertByWhen, if_neg h, List.mem_cons, ih]
      tauto

lemma mem_sortFold {a : SessionEntry} :
    ∀ (l acc : List SessionEntry),
      a ∈ l.foldl (fun acc e => insertByWhen e acc) acc ↔ a ∈ acc ∨ a ∈ l := by
  intro l
  induction l with
  | nil => simp
  | cons x xs ih =>
    intro acc
    simp only [List.foldl_cons, ih, mem_insertByWhen, List.mem_cons]
    tauto

lemma mem_sortByWhenDesc {a : SessionEntry} {l : List SessionEntry} :
    a ∈ sortByWhenDesc l ↔ a ∈ l := by
  simp [sortByWhenDesc, mem_sortFold]

lemma length_insertByWhen {e : SessionEntry} {l : List SessionEntry} :
    (insertByWhen e l).length = l.length + 1 := by
  induction l with
  | nil => simp [insertByWhen]
  | cons x xs ih =>
    by_cases h : x.when < e.when <;> simp [insertByWhen, h, ih]

lemma length_sortFold :
    ∀ (l acc : List SessionEntry),
      (l.foldl (fun acc e => insertByWhen e acc) acc).length = acc.length + l.length := by
  intro l
  induction l with
  | nil => simp
  | cons x xs ih =>
    intro acc
    simp only [List.foldl_cons, ih, length_insertByWhen, List.length_cons]
    omega

lemma length_sortByWhenDesc {l : List SessionEntry} :
    (sortByWhenDesc l).length = l.length := by
  simp [sortByWhenDesc, length_sortFold]

lemma readHeader_some {p : String} {c : List Line} {e : SessionEntry}
    (h : readHeader p c = some (some e)) :
    ∃ hd rest t tc, c = Line.header hd :: rest ∧ hd.meta.timestampParse = some t ∧
      readHeaderTitleChars (foldState c) hd.meta.instructions = some tc ∧
      e = ⟨hd.meta.id, t, String.mk tc, p, some hd.meta.cwd, hd.branch, hd.repoHost⟩ := by
  rcases c with _ | ⟨l, rest⟩
  · simp [readHeader] at h
  · rcases l with hd | nm | _
    · rcases hts : hd.meta.timestampParse with _ | t
      · simp [readHeader, hts] at h
      · rcases htc : readHeaderTitleChars (foldState (Line.header hd :: rest))
            hd.meta.instructions with _ | tc
        · simp [readHeader, hts, htc] at h
        · refine ⟨hd, rest, t, tc, rfl, hts, htc, ?_⟩
          simp [readHeader, hts, htc] at h
          exact h.symm
    · simp [readHeader] at h
    · simp [readHeader] at h

lemma readHeader_path {p : String} {c : List Line} {e : SessionEntry}
    (h : readHeader p c = some (some e)) : e.path = p := by
  obtain ⟨hd, rest, t, tc, _, _, _, he⟩ := readHeader_some h
  rw [he]

lemma readHeader_excluded {p : String} {c : List Line} (h : headerOk c = false) :
    readHeader p c = some none := by
  rcases c with _ | ⟨l, rest⟩
  · simp [readHeader]
  · rcases l with hd | nm | _
    · have hts : hd.meta.timestampParse = none := by
        rcases hts : hd.meta.timestampParse with _ | t
        · rfl
        · rw [headerOk, hts] at h
          simp at h
      simp [readHeader, hts]
    · simp [readHeader]
    · simp [readHeader]

lemma collectEntries_mem_elim :
    ∀ {fs : FS} {es : List SessionEntry} {e : SessionEntry},
      collectEntries fs = some es → e ∈ es →
      ∃ p c, (p, c) ∈ fs ∧ isRolloutFile (fileNameOf p) = true ∧
        readHeader p c = some (some e) := by
  intro fs
  induction fs with
  | nil =>
    intro es e h he
    simp [collectEntries] at h
    subst h
    simp at he
  | cons pc rest ih =>
    intro es e h he
    obtain ⟨p, c⟩ := pc
    by_cases hroll : isRolloutFile (fileNameOf p) = true
    · rw [collectEntries, if_pos hroll] at h
      rcases hrh : readHeader p c with _ | pe
      · rw [hrh] at h
        simp at h
      · rcases pe with _ | e'
        · rw [hrh] at h
          obtain ⟨p', c', hm, hr2, hh⟩ := ih h he
          exact ⟨p', c', List.mem_cons_of_mem _ hm, hr2, hh⟩
        · rw [hrh] at h
          rcases hrec : collectEntries rest with _ | es'
          · rw [hrec] at h
            simp at h
          · rw [hrec] at h
            simp only [Option.map_some', Option.some.injEq] at h
            subst h
            rcases List.mem_cons.mp he with he | he
            · exact ⟨p, c, by simp, hroll, by rw [he]; exact hrh⟩
            · obtain ⟨p', c', hm, hr2, hh⟩ := ih hrec he
              exact ⟨p', c', List.mem_cons_of_mem _ hm, hr2, hh⟩
    · rw [collectEntries, if_neg hroll] at h
      obtain ⟨p', c', hm, hr2, hh⟩ := ih h he
      exact ⟨p', c', List.mem_cons_of_mem _ hm, hr2, hh⟩

lemma collectEntries_mem_intro :
    ∀ {fs : FS} {es : List SessionEntry} {p : String} {c : List Line} {e : SessionEntry},
      collectEntries fs = some es → (p, c) ∈ fs →
      isRolloutFile (fileNameOf p) = true → readHeader p c = some (some e) → e ∈ es := by
  intro fs
  induction fs with
  | nil =>
    intro es p c e _ hm
    simp at hm
  | cons pc rest ih =>
    intro es p c e h hm hroll hrh
    obtain ⟨p', c'⟩ := pc
    rcases List.mem_cons.mp hm with hm | hm
    · injection hm with h1 h2
      subst h1
      subst h2
      rw [collectEntries, if_pos hroll, hrh] at h
      rcases hrec : collectEntries rest with _ | es'
      · rw [hrec] at h
        simp at h
      · rw [hrec] at h
        simp only [Option.map_some', Option.some.injEq] at h
        subst h
        simp
    · by_cases hroll' : isRolloutFile (fileNameOf p') = true
      · rw [collectEntries, if_pos hroll'] at h
        rcases hrh' : readHeader p' c' with _ | pe
        · rw [hrh'] at h
          simp at h
        · rcases pe with _ | e'
          · rw [hrh'] at h
            exact ih h hm hroll hrh
          · rw [hrh'] at h
            rcases hrec : collectEntries rest with _ | es'
            · rw [hrec] at h
              simp at h
            · rw [hrec] at h
              simp only [Option.map_some', Option.some.injEq] at h
              subst h
              exact List.mem_cons_of_mem _ (ih hrec hm hroll hrh)
      · rw [collectEntries, if_neg hroll'] at h
        exact ih h hm hroll hrh

lemma nodup_keys_eq :
    ∀ {fs : FS} {p : String} {c c' : List Line},
      (fs.map (fun e => e.1)).Nodup → (p, c) ∈ fs → (p, c') ∈ fs → c = c' := by
  intro fs
  induction fs with
  | nil =>
    intro p c c' _ h1
    simp at h1
  | cons x rest ih =>
    intro p c c' hnd h1 h2
    rw [List.map_cons, List.nodup_cons] at hnd
    rcases List.mem_cons.mp h1 with h1 | h1 <;> rcases List.mem_cons.mp h2 with h2 | h2
    · rw [← h1] at h2
      injection h2 with _ h
      exact h.symm
    · exfalso
      apply hnd.1
      rw [← h1]
      exact List.mem_map.mpr ⟨(p, c'), h2, rfl⟩
    · exfalso
      apply hnd.1
      rw [← h2]
      exact List.mem_map.mpr ⟨(p, c), h1, rfl⟩
    · exact ih hnd.2 h1 h2

lemma foldState_eq_none :
    ∀ {c : List Line}, (∀ l ∈ c, isStateLine l = false) → foldState c = none := by
  have aux : ∀ (ls : List Line) (acc : Option String),
      (∀ l ∈ ls, isStateLine l = false) →
      ls.foldl (fun acc l =>
        match l with
        | Line.state (some n) => some n
        | _ => acc) acc = acc := by
    intro ls
    induction ls with
    | nil => intro acc _; rfl
    | cons l tl ih =>
      intro acc h
      have hl := h l (by simp)
      have htl : ∀ x ∈ tl, isStateLine x = false := fun x hx => h x (by simp [hx])
      rcases l with hd | nm | _
      · simpa using ih acc htl
      · simp [isStateLine] at hl
      · simpa using ih acc htl
  intro c h
  exact aux c none h

/-- C2: requesting an interrupt atomically takes the stored process-group
identifier while clearing the slot and, when a value was present, delivers
one `SIGINT` addressed to the negated group identifier; a second interrupt
request with no new spawn recorded in between finds the slot empty and
delivers no signal, so the pair delivers at most one signal. -/
theorem c2_interrupt_idempotent (s : Option Int) :
    (interrupt s).1 = none
    ∧ (∀ g, s = some g → (interrupt s).2 = some ⟨-g, SIGINT⟩)
    ∧ (s = none → (interrupt s).2 = none)
    ∧ interrupt (interrupt s).1 = (none, none) := by
  rcases s with _ | g <;> simp [interrupt]

theorem c2_interrupt_idempotent_witness :
    (interrupt (some 7)).2 = some ⟨-7, SIGINT⟩ :=
  (c2_interrupt_idempotent (some 7)).2.1 7 rfl

/-- C10: the derived title of a valid session file whose resolved title
has a multi-byte character straddling byte offset 80 panics inside
`String::truncate` (modelled by `none`) instead of producing a truncated
string; `longName` is 81 bytes with byte 80 inside its final character. -/
theorem c10_byte_truncation_panics :
    readHeader "rollout-p.jsonl" fileP = none ∧ utf8Len longName.data = 81 := by decide

/-- C1 counterexample: for a session file with no state name and
instructions `"\nfoo"`, the code derives `"(no title)"` (it takes the
first line, which is blank, and trims it), while the spec's resolution
takes the first non-blank line and derives `"foo"`. -/
theorem c1_counterexample :
    readHeaderTitleChars none (some "\nfoo") ≠ some (specTitleChars none (some "\nfoo"))
    ∧ readHeaderTitleChars none (some "\nfoo") = some "(no title)".data
    ∧ specTitleChars none (some "\nfoo") = "foo".data := by decide

/-- C3 (failing input): with the picker in ConfirmDelete on
`rollout-a.jsonl`, the key sequence Enter then `u` ends with the event
loop already gone after the Enter (`break`), exit value `None`: the `u` is
never handled, the file stays at `rollout-a.deleted`, the original path is
gone, and discovery finds nothing — the undo the claim describes cannot
run. -/
theorem c3_undo_after_delete_unreachable :
    (runKeys widgetA fsA [Key.enter, Key.chr 'u']).map
      (fun r => (r.2.2, fsExists r.2.1 "rollout-a.jsonl", fsExists r.2.1 "rollout-a.deleted",
                 collect_recent_sessions r.2.1 10))
      = some (some none, false, true, some []) := by decide

/-- C4 (failing input): Enter in ConfirmDelete moves the target to the
collision-disambiguated backup `rollout-b.deleted.1`, replaces the prior
undo slot, removes the entry from the in-memory list — and then `break`s
out of the event loop, terminating the picker with no selection instead of
returning to Browsing. -/
theorem c4_confirm_delete_exits_loop :
    stepExits (handleKey widgetB fsB Key.enter) = some none
    ∧ (stepWidget (handleKey widgetB fsB Key.enter)).map
        (fun w => (w.lastDeleted, w.confirmDeletePath, w.entries))
      = some (some ("rollout-b.jsonl", "rollout-b.deleted.1"), none, [])
    ∧ (stepFS (handleKey widgetB fsB Key.enter)).map
        (fun f => (fsExists f "rollout-b.jsonl", fsExists f "rollout-b.deleted.1",
                   fsExists f "rollout-b.deleted"))
      = some (false, true, true) := by decide

/-- C6 counterexample: committing the rename of `rollout-c.jsonl` (buffer
`"New"`) on an empty filesystem makes `append_state_line` fail, yet no
hint is surfaced (`lastActionHint` stays `none`) and the in-memory title
is updated to `"New"` anyway; only the on-disk state is unchanged. -/
theorem c6_counterexample :
    stepExits (handleKey widgetC [] Key.enter) = some none
    ∧ (stepWidget (handleKey widgetC [] Key.enter)).map
        (fun w => (w.lastActionHint, w.entries.map (fun e => e.title)))
      = some (none, ["New"])
    ∧ stepFS (handleKey widgetC [] Key.enter) = some [] := by decide

/-- C8 counterexample: from the selectable row 1 of
`[header, entry, entry]` with a 2-row window, PageDown repeats the raw
wrap step twice and rests the selection on row 0, the date-header row —
page movement does not skip header rows. -/
theorem c8_counterexample :
    (afterKey widgetP [] Key.pageDown).selected = some 0
    ∧ ((afterKey widgetP [] Key.pageDown).rows.map (fun r => r.isHeader)).getD 0 false = true
    ∧ ¬ selectionOk (afterKey widgetP [] Key.pageDown) := by
  refine ⟨by decide, by decide, fun h => ?_⟩
  have h0 := (h 0 (by decide)).2
  exact absurd h0 (by decide)

/-- C9: resolving a session whose argument is not an existing path fails
with the distinct no-match error when no discovered session id starts with
the prefix, returns the unique matching session's path when exactly one
does, and fails with the distinct ambiguous error when at least two do. -/
theorem c9_resolve_by_id (fs : FS) (arg : String)
    (hnp : fsExists fs arg = false) :
    ((collect_sessions fs).filter (fun e => strStartsWith e.id arg) = [] →
      resolve_session_path fs arg = .error .noMatch)
    ∧ (∀ one, (collect_sessions fs).filter (fun e => strStartsWith e.id arg) = [one] →
      resolve_session_path fs arg = .ok one.path)
    ∧ (2 ≤ ((collect_sessions fs).filter (fun e => strStartsWith e.id arg)).length →
      resolve_session_path fs arg = .error .ambiguous) := by
  refine ⟨?_, ?_, ?_⟩
  · intro h
    simp [resolve_session_path, hnp, h]
  · intro one h
    simp [resolve_session_path, hnp, h]
  · intro hlen
    rcases hms : (collect_sessions fs).filter (fun e => strStartsWith e.id arg) with
      _ | ⟨a, _ | ⟨b, tl⟩⟩
    · rw [hms] at hlen; simp at hlen
    · rw [hms] at hlen; simp at hlen
    · simp [resolve_session_path, hnp, hms]

theorem c9_resolve_by_id_witness :
    resolve_session_path fsR "ab" = .error .ambiguous :=
  (c9_resolve_by_id fsR "ab" (by decide)).2.2 (by decide)

/-- C1 (amended): the derived title is the state name when present and
non-empty (with no trimming test); otherwise the trimmed first line of the
instructions (even when that first line is blank and a later line is not);
otherwise the literal `"(no title)"`; and the result, whatever its source,
is truncated at byte index 80 with no marker when longer than 80 UTF-8
bytes (panicking when byte 80 is not a character boundary). -/
theorem c1_title_resolution_amended (name instructions : Option String) :
    (∀ n, name = some n → n ≠ "" →
      readHeaderTitleChars name instructions = truncate80 n.data)
    ∧ (name.getD "" = "" →
      (rustTrim (firstLine (instructions.getD "").data) ≠ [] →
        readHeaderTitleChars name instructions
          = truncate80 (rustTrim (firstLine (instructions.getD "").data)))
      ∧ (rustTrim (firstLine (instructions.getD "").data) = [] →
        readHeaderTitleChars name instructions = some "(no title)".data)) := by
  constructor
  · rintro n rfl hne
    have hd : n.data ≠ [] := by
      intro h
      apply hne
      cases n
      simp only at h
      subst h
      decide
    rcases hl : n.data with _ | ⟨c, cs⟩
    · exact absurd hl hd
    · simp only [readHeaderTitleChars, Option.getD_some, hl, List.isEmpty_cons,
        Bool.false_eq_true, if_false]
  · intro hge
    have h1 : (name.getD "").data = [] := by rw [hge]
    constructor
    · intro hne
      rcases hl : rustTrim (firstLine (instructions.getD "").data) with _ | ⟨c, cs⟩
      · exact absurd hl hne
      · simp only [readHeaderTitleChars, h1, List.isEmpty_nil, if_true, hl,
          List.isEmpty_cons, Bool.false_eq_true, if_false]
    · intro he
      simp only [readHeaderTitleChars, h1, List.isEmpty_nil, if_true, he]
      decide

theorem c1_title_resolution_amended_witness :
    readHeaderTitleChars (some "Alpha") none = truncate80 "Alpha".data :=
  (c1_title_resolution_amended (some "Alpha") none).1 "Alpha" rfl (by decide)

/-- The Enter handler in Browsing (no rename, no filter, no pending
delete) reduces to the resume decision of lines 1109-1131. -/
lemma handleKey_enter_browsing (w : Widget) (fs : FS) (p : String)
    (hr : w.isRenaming = false) (hf : w.filtering = false)
    (hd : w.confirmDeletePath = none) (hp : selectedPath w = some p) :
    handleKey w fs .enter =
      (if w.confirmResumePath == some p || !(needsConfirmFor w p) then
        StepResult.exits w fs (some p)
      else .cont { w with confirmResumePath := some p } fs) := by
  simp only [handleKey, hr, hf, hd, hp, Bool.false_eq_true, if_false]

/-- C5: Enter in Browsing terminates the picker returning the selected
path when the entry's recorded working directory equals the current one,
when the entry records no working directory, or when a confirmation is
already pending for this exact target; otherwise it transitions to
ConfirmResume without terminating, and a subsequent Enter on the same
target terminates with the selected path. -/
theorem c5_enter_resume (w : Widget) (fs : FS) (p : String)
    (hr : w.isRenaming = false) (hf : w.filtering = false)
    (hd : w.confirmDeletePath = none) (hp : selectedPath w = some p) :
    ((∃ e, w.entries.find? (fun x => x.path == p) = some e ∧ e.cwd = some w.currentCwd) →
      handleKey w fs .enter = .exits w fs (some p))
    ∧ ((∃ e, w.entries.find? (fun x => x.path == p) = some e ∧ e.cwd = none) →
      handleKey w fs .enter = .exits w fs (some p))
    ∧ (w.confirmResumePath = some p → handleKey w fs .enter = .exits w fs (some p))
    ∧ (needsConfirmFor w p = true → w.confirmResumePath ≠ some p →
      handleKey w fs .enter = .cont { w with confirmResumePath := some p } fs
      ∧ handleKey { w with confirmResumePath := some p } fs .enter
          = .exits { w with confirmResumePath := some p } fs (some p)) := by
  refine ⟨?_, ?_, ?_, ?_⟩
  · rintro ⟨e, hfind, hcwd⟩
    have hnc : needsConfirmFor w p = false := by
      simp [needsConfirmFor, hfind, hcwd]
    rw [handleKey_enter_browsing w fs p hr hf hd hp, hnc]
    simp
  · rintro ⟨e, hfind, hcwd⟩
    have hnc : needsConfirmFor w p = false := by
      simp [needsConfirmFor, hfind, hcwd]
    rw [handleKey_enter_browsing w fs p hr hf hd hp, hnc]
    simp
  · intro hcr
    rw [handleKey_enter_browsing w fs p hr hf hd hp, hcr]
    simp
  · intro hnc hne
    have hb : (w.confirmResumePath == some p) = false := by
      simpa using hne
    constructor
    · rw [handleKey_enter_browsing w fs p hr hf hd hp, hnc, hb]
      simp
    · rw [handleKey_enter_browsing { w with confirmResumePath := some p } fs p hr hf hd hp]
      simp

theorem c5_enter_resume_witness :
    handleKey widgetE fsA Key.enter = .exits widgetE fsA (some "rollout-a.jsonl") :=
  (c5_enter_resume widgetE fsA "rollout-a.jsonl" rfl rfl rfl (by decide)).1
    ⟨entryA, by decide, rfl⟩

/-- C6 (amended): when `append_state_line` fails during a rename commit
the failure is silently ignored — no hint is surfaced, the in-memory title
is updated to the new name regardless, the on-disk state is unchanged —
and the handler then breaks out of the event loop. -/
theorem c6_rename_append_failure_ignored (w : Widget) (fs : FS) (e : SessionEntry)
    (hr : w.isRenaming = true) (he : selectedEntry? w = some e) (hn : w.renameText ≠ "")
    (hfail : append_state_line fs e.path (some w.renameText) = .error ()) :
    handleKey w fs .enter
      = .exits
          { rebuild_from_filter { w with entries := setTitleFirst w.entries e.path w.renameText }
            with isRenaming := false, renameText := "" } fs none
    ∧ (rebuild_from_filter
        { w with entries := setTitleFirst w.entries e.path w.renameText }).lastActionHint
      = w.lastActionHint := by
  constructor
  · simp only [handleKey, hr, if_true, he, if_pos hn, hfail]
  · rfl

/-- C7: a rollout-named file whose first line does not parse as the
header shape, or whose header timestamp fails RFC3339 parsing, never
appears in discovery results (for any limit); and a well-formed file with
zero state lines still appears — when the limit accommodates the scan —
with its title resolved from the instructions-derived text or the
placeholder. -/
theorem c7_discovery_exclusion (fs : FS) (limit : Nat) (out : List SessionEntry)
    (hnd : (fs.map (fun e => e.1)).Nodup)
    (hout : collect_recent_sessions fs limit = some out) :
    (∀ p c, (p, c) ∈ fs → headerOk c = false → ∀ e ∈ out, e.path ≠ p)
    ∧ (∀ p c e, (p, c) ∈ fs → isRolloutFile (fileNameOf p) = true →
        (∀ l ∈ c, isStateLine l = false) →
        readHeader p c = some (some e) →
        (∀ es, collectEntries fs = some es → es.length ≤ limit) →
        e ∈ out ∧ readHeaderTitleChars none (instructionsOf c) = some e.title.data) := by
  obtain ⟨es, hes, hform⟩ := Option.map_eq_some'.mp hout
  constructor
  · intro p c hmem hbad e heout hpe
    rw [← hform] at heout
    have h2 : e ∈ es := mem_sortByWhenDesc.mp (List.take_subset _ _ heout)
    obtain ⟨p', c', hm', hroll', hrh'⟩ := collectEntries_mem_elim hes h2
    have hpp : p' = p := by rw [← readHeader_path hrh', hpe]
    rw [hpp] at hm' hrh'
    have hcc : c = c' := nodup_keys_eq hnd hmem hm'
    rw [← hcc, readHeader_excluded hbad] at hrh'
    simp at hrh'
  · intro p c e hmem hroll hnostate hrh hlim
    have he : e ∈ es := collectEntries_mem_intro hes hmem hroll hrh
    have hfull : (sortByWhenDesc es).take limit = sortByWhenDesc es := by
      apply List.take_of_length_le
      rw [length_sortByWhenDesc]
      exact hlim es hes
    constructor
    · rw [← hform, hfull]
      exact mem_sortByWhenDesc.mpr he
    · obtain ⟨hd, rest, t, tc, hc, hts, htc, hee⟩ := readHeader_some hrh
      have hfold : foldState c = none := foldState_eq_none hnostate
      rw [hfold] at htc
      have hinstr : instructionsOf c = hd.meta.instructions := by rw [hc]; rfl
      rw [hinstr, htc, hee]

theorem c7_discovery_exclusion_witness :
    entryG.path ≠ "rollout-bad.jsonl" :=
  (c7_discovery_exclusion fsW7 10 [entryG] (by decide) (by decide)).1
    "rollout-bad.jsonl" [Line.other] (by decide) (by decide) entryG (by decide)

theorem c6_rename_append_failure_ignored_witness :
    handleKey widgetC [] Key.enter
      = .exits
          { rebuild_from_filter
              { widgetC with entries := setTitleFirst widgetC.entries entryC.path widgetC.renameText }
            with isRenaming := false, renameText := "" } [] none :=
  (c6_rename_append_failure_ignored widgetC [] entryC rfl (by decide) (by decide) rfl).1

/-- C8 (amended): whenever a selectable row exists and the current
selection is in range, single-step Up/Down movement (which skips header
rows in its direction of travel, wrapping at list ends) and the Home/End
jumps each leave the selection on a selectable entry row, never a
non-selectable date-header row. Page movement, by contrast, repeats the
raw wrapping step with no header check and can rest the selection on a
header row, and re-filtering merely clamps the index (see the
counterexample). -/
theorem c8_movement_preserves_selection (w : Widget) (fs : FS)
    (hr : w.isRenaming = false) (hf : w.filtering = false)
    (hok : selectionOk w)
    (j : Nat) (hj : j < w.rows.length)
    (hjh : (w.rows.map (fun r => r.isHeader)).getD j false = false) :
    selectionOk (afterKey w fs .up) ∧ selectionOk (afterKey w fs .down)
    ∧ selectionOk (afterKey w fs .homeK) ∧ selectionOk (afterKey w fs .endK) := by
  have hL : (w.rows.map (fun r => r.isHeader)).length = w.rows.length := List.length_map _ _
  have hj' : j < (w.rows.map (fun r => r.isHeader)).length := by omega
  have hsel : ∀ i, w.selected = some i → i < (w.rows.map (fun r => r.isHeader)).length := by
    intro i hi
    have := (hok i hi).1
    omega
  refine ⟨?_, ?_, ?_, ?_⟩
  · have hred : afterKey w fs Key.up
        = { w with selected :=
            (skipLoop (w.rows.map (fun r => r.isHeader)) (move_up_wrap w.rows.length)
              w.selected (w.rows.length + 1)) } := by
      simp [afterKey, handleKey, stepWidget, hr, hf]
    rw [hred, ← hL]
    apply selectionOk_of_selected
    intro i hi
    obtain ⟨m, hm, hlt, hnh⟩ :=
      skipLoop_up_any (w.rows.map (fun r => r.isHeader)) w.selected j hj' hjh hsel
    rw [hm] at hi
    injection hi with hmi
    subst hmi
    exact ⟨by omega, hnh⟩
  · have hred : afterKey w fs Key.down
        = { w with selected :=
            (skipLoop (w.rows.map (fun r => r.isHeader)) (move_down_wrap w.rows.length)
              w.selected (w.rows.length + 1)) } := by
      simp [afterKey, handleKey, stepWidget, hr, hf]
    rw [hred, ← hL]
    apply selectionOk_of_selected
    intro i hi
    obtain ⟨m, hm, hlt, hnh⟩ :=
      skipLoop_down_any (w.rows.map (fun r => r.isHeader)) w.selected j hj' hjh hsel
    rw [hm] at hi
    injection hi with hmi
    subst hmi
    exact ⟨by omega, hnh⟩
  · have hie : w.rows.isEmpty = false := by
      cases hrw : w.rows with
      | nil => rw [hrw] at hj; simp at hj
      | cons a l => rfl
    have hred : afterKey w fs Key.homeK
        = { w with selected :=
            (some (homeSkip (w.rows.map (fun r => r.isHeader)) 0 w.rows.length)) } := by
      simp [afterKey, handleKey, stepWidget, hr, hf, hie]
    rw [hred]
    apply selectionOk_of_selected
    intro i hi
    injection hi with hmi
    subst hmi
    obtain ⟨hlt, hnh⟩ :=
      homeSkip_ok (w.rows.map (fun r => r.isHeader)) j hj' hjh w.rows.length 0
        (by omega) (by omega)
    exact ⟨by omega, hnh⟩
  · have hlen0 : ¬ w.rows.length = 0 := by omega
    have hred : afterKey w fs Key.endK
        = { w with selected :=
            (some (endSkip (w.rows.map (fun r => r.isHeader)) (w.rows.length - 1)
              w.rows.length)) } := by
      simp [afterKey, handleKey, stepWidget, hr, hf, hlen0]
    rw [hred]
    apply selectionOk_of_selected
    intro i hi
    injection hi with hmi
    subst hmi
    obtain ⟨hlt, hnh⟩ :=
      endSkip_ok (w.rows.map (fun r => r.isHeader)) j hj' hjh w.rows.length
        (w.rows.length - 1) (by omega) (by omega) (by omega)
    exact ⟨by omega, hnh⟩

theorem c8_movement_preserves_selection_witness :
    2 < (afterKey widgetP [] Key.up).rows.length
    ∧ ((afterKey widgetP [] Key.up).rows.map (fun r => r.isHeader)).getD 2 false = false :=
  (c8_movement_preserves_selection widgetP [] rfl rfl
      (fun i hi => by
        simp only [widgetP, Option.some.injEq] at hi
        subst hi
        exact ⟨by decide, by decide⟩)
      1 (by decide) (by decide)).1 2 (by decide)

end Codex

